import Mathlib

/-!
Verification of the Splide slider core against its specification.

The definitions below are shallow embeddings of the TypeScript source:

* `Splide.Clones` embeds `src/js/components/Clones/Clones.ts`
  (`computeCloneCount`, `generate` and the `init` guard).
* `Splide.Core` embeds the `Splide` class (`mount`, `destroy`, states)
  together with the state constants from `constants/states.ts`.
* `Splide.SlideComp` embeds `updateActivity` / `updateVisibility` from
  `components/Slides/Slide.ts`.
* `Splide.Layout` embeds the size queries of `components/Layout/Layout.ts`.
* `Splide.MergeUtil` embeds `utils/object/merge/merge.ts`, once over an
  explicit heap (to speak about in-place mutation and aliasing) and once
  over object trees (the alias-free functional view).

Pixel quantities are modelled as natural numbers / integers; DOM side
effects are modelled as explicit state or as action traces.
-/

namespace Splide

namespace Clones

/-- Configuration read by `computeCloneCount`: the relevant options plus the
measured geometry (`fixedSize` is the measured `fixedWidth`/`fixedHeight`
option, `0` meaning "not set", mirroring JS falsiness; `trackWidth` is the
resolved track rect extent; `length` is `Splide.length`, the real slide
count). -/
structure CloneConfig where
  type : String
  clones : Nat
  drag : Bool
  flickMaxPages : Nat
  perPage : Nat
  autoWidth : Bool
  fixedSize : Nat
  trackWidth : Nat
  length : Nat
deriving DecidableEq

/-- The `'loop'` type constant from `constants/types.ts`. -/
def LOOP : String := "loop"

/-- Embedding of `Clones.computeCloneCount`:
`let { clones } = options; if (!Splide.is(LOOP)) clones = 0;
else if (!clones) { const fixedCount = fixedSize && ceil(trackWidth / fixedSize);
const baseCount = fixedCount || (autoWidth && Splide.length) || perPage;
clones = baseCount * (drag ? (flickMaxPages || 1) + 1 : 2); }`.
JS `x || y` on numbers is modelled by a zero test, and `Math.ceil` of the
float division by the ceiling division of naturals. -/
def computeCloneCount (c : CloneConfig) : Nat :=
  if c.type ≠ LOOP then 0
  else if c.clones ≠ 0 then c.clones
  else
    let fixedCount := if c.fixedSize = 0 then 0 else (c.trackWidth + c.fixedSize - 1) / c.fixedSize
    let baseCount :=
      if fixedCount ≠ 0 then fixedCount
      else if c.autoWidth ∧ c.length ≠ 0 then c.length
      else c.perPage
    baseCount * (if c.drag then (if c.flickMaxPages = 0 then 1 else c.flickMaxPages) + 1 else 2)

/-- Embedding of the `while ( slides.length < count ) push( slides, slides )`
loop in `Clones.generate`: `push( slides, slides )` appends a snapshot of the
array to itself, doubling it.  The surrounding `if ( length )` guard is folded
into the condition so the loop is well defined on the inputs it is run on. -/
def repeatUntil (slides : List Nat) (count : Nat) : List Nat :=
  if h : slides.length < count ∧ slides ≠ [] then
    repeatUntil (slides ++ slides) count
  else
    slides
termination_by count - slides.length
decreasing_by
  have hpos : 0 < slides.length := List.length_pos.mpr h.2
  simp only [List.length_append]
  omega

/-- JS `array.slice( -n )`: the last `n` elements (the whole array when
`n = 0`, since `-0 === 0`, and when `n` exceeds the length). -/
def sliceNeg (l : List Nat) (n : Nat) : List Nat :=
  if n = 0 then l else l.drop (l.length - n)

/-- Embedding of `Clones.generate( count )`.  A real slide is represented by
its real index; the result lists the registered clones as pairs of the
placement index passed to `Slides.register`
(`index - count + ( isHead ? 0 : length )`) and the `Slide.index` the clone
was taken from (its `cloneOfIndex`).  The concatenation
`push( slides.slice( -count ), slides.slice( 0, count ) )` lists head clones
first and tail clones second, and `length` is captured before the repeat
loop runs. -/
def generate (slides : List Nat) (count : Nat) : List (Int × Nat) :=
  if slides.length = 0 then []
  else
    let len := slides.length
    let rep := repeatUntil slides count
    (sliceNeg rep count ++ rep.take count).mapIdx
      fun index s =>
        (((index : Int) - (count : Int)) + (if index < count then 0 else (len : Int)), s)

/-- Embedding of `Clones.init` restricted to what it registers: clones are
generated only when the computed count is nonzero
(`if ( cloneCount = computeCloneCount() ) { generate( cloneCount ); ... }`). -/
def clonesInit (c : CloneConfig) (slides : List Nat) : List (Int × Nat) :=
  let n := computeCloneCount c
  if n ≠ 0 then generate slides n else []

/-- Modelled from the spec: the Slide Registry holds one handle per real
slide plus one per registered clone (`Slides.ts` itself is not part of the
sources; §4.4 `register` adds one handle per call).  The registry size after
`Clones.init` is therefore the real count plus the generated clone count. -/
def registryLength (c : CloneConfig) (slides : List Nat) : Nat :=
  slides.length + (clonesInit c slides).length

theorem repeatUntil_mem (slides : List Nat) (count : Nat) :
    ∀ x ∈ repeatUntil slides count, x ∈ slides := by
  induction slides, count using repeatUntil.induct with
  | case1 slides count h ih =>
      intro x hx
      rw [repeatUntil, dif_pos h] at hx
      have := ih x hx
      rcases List.mem_append.mp this with h1 | h1 <;> exact h1
  | case2 slides count h =>
      intro x hx
      rwa [repeatUntil, dif_neg h] at hx

theorem repeatUntil_length (slides : List Nat) (count : Nat) (h : slides ≠ []) :
    count ≤ (repeatUntil slides count).length := by
  induction slides, count using repeatUntil.induct with
  | case1 slides count hc ih =>
      rw [repeatUntil, dif_pos hc]
      exact ih (by simp [hc.2])
  | case2 slides count hc =>
      rw [repeatUntil, dif_neg hc]
      rcases not_and_or.mp hc with h1 | h1
      · omega
      · exact absurd h (by simpa using h1)

theorem sliceNeg_length (l : List Nat) (n : Nat) (h1 : n ≤ l.length) (h0 : n ≠ 0) :
    (sliceNeg l n).length = n := by
  simp only [sliceNeg, if_neg h0, List.length_drop]
  omega

theorem sliceNeg_subset (l : List Nat) (n : Nat) : ∀ x ∈ sliceNeg l n, x ∈ l := by
  intro x hx
  unfold sliceNeg at hx
  split at hx
  · exact hx
  · exact List.mem_of_mem_drop hx

theorem generate_length (slides : List Nat) (count : Nat) (hs : slides ≠ []) (hc : 0 < count) :
    (generate slides count).length = 2 * count := by
  have h0 : slides.length ≠ 0 := by simpa [List.length_eq_zero] using hs
  have hrep := repeatUntil_length slides count hs
  have hA := sliceNeg_length (repeatUntil slides count) count hrep (by omega)
  simp only [generate, if_neg h0, List.length_mapIdx, List.length_append, hA, List.length_take]
  omega

theorem generate_head (slides : List Nat) (count : Nat) (hs : slides ≠ []) (hc : 0 < count) :
    ∀ i, i < count →
      (((generate slides count).take count)[i]?).map Prod.fst = some ((i : Int) - count) := by
  intro i hi
  have h0 : slides.length ≠ 0 := by simpa [List.length_eq_zero] using hs
  have hrep := repeatUntil_length slides count hs
  have hA := sliceNeg_length (repeatUntil slides count) count hrep (by omega)
  rw [List.getElem?_take, if_pos hi]
  simp only [generate, if_neg h0]
  rw [List.getElem?_mapIdx, List.getElem?_append_left (by omega),
    List.getElem?_eq_getElem (show i < (sliceNeg (repeatUntil slides count) count).length by omega)]
  simp [hi]

theorem generate_tail (slides : List Nat) (count : Nat) (hs : slides ≠ []) (hc : 0 < count) :
    ∀ i, i < count →
      (((generate slides count).drop count)[i]?).map Prod.fst
        = some ((slides.length : Int) + i) := by
  intro i hi
  have h0 : slides.length ≠ 0 := by simpa [List.length_eq_zero] using hs
  have hrep := repeatUntil_length slides count hs
  have hA := sliceNeg_length (repeatUntil slides count) count hrep (by omega)
  rw [List.getElem?_drop]
  simp only [generate, if_neg h0]
  rw [List.getElem?_mapIdx, List.getElem?_append_right (by omega)]
  have hi' : count + i - (sliceNeg (repeatUntil slides count) count).length = i := by omega
  rw [hi', List.getElem?_take, if_pos hi,
    List.getElem?_eq_getElem (show i < (repeatUntil slides count).length by omega)]
  have hcond : ¬ (count + i < count) := by omega
  simp only [Option.map_some', if_neg hcond]
  congr 1
  push_cast
  ring

theorem generate_sources_mem (slides : List Nat) (count : Nat) :
    ∀ p ∈ generate slides count, p.2 ∈ slides := by
  intro p hp
  unfold generate at hp
  by_cases h0 : slides.length = 0
  · simp [h0] at hp
  · rw [if_neg h0] at hp
    rcases List.mem_iff_getElem.mp hp with ⟨i, hi, hgi⟩
    rw [List.getElem_mapIdx] at hgi
    subst hgi
    have hmem := List.getElem_mem (l := sliceNeg (repeatUntil slides count) count
      ++ (repeatUntil slides count).take count) (by simpa using hi)
    rcases List.mem_append.mp hmem with hm | hm
    · exact repeatUntil_mem slides count _ (sliceNeg_subset _ _ _ hm)
    · exact repeatUntil_mem slides count _ (List.mem_of_mem_take hm)

/-- C1: for any loop configuration with clone count `N > 0` and a nonempty
real slide list, `generate` produces exactly `N` head clones with placement
indices `i - N` for `i < N` (the range `[-N, -1]`) followed by exactly `N`
tail clones with placement indices `realCount + i` (the range
`[realCount, realCount + N - 1]`), and every clone's `cloneOfIndex` is one of
the real slide indices; the real sequence is repeated before slicing, so this
holds also when `realCount < N`. -/
theorem clones_generate_loop_windows (slides : List Nat) (count : Nat)
    (hs : slides ≠ []) (hc : 0 < count) :
    ((generate slides count).take count).length = count ∧
    ((generate slides count).drop count).length = count ∧
    (∀ i, i < count →
      (((generate slides count).take count)[i]?).map Prod.fst = some ((i : Int) - count)) ∧
    (∀ i, i < count →
      (((generate slides count).drop count)[i]?).map Prod.fst
        = some ((slides.length : Int) + i)) ∧
    (∀ p ∈ generate slides count, p.2 ∈ slides) := by
  have hlen := generate_length slides count hs hc
  refine ⟨?_, ?_, generate_head slides count hs hc, generate_tail slides count hs hc,
    generate_sources_mem slides count⟩
  · rw [List.length_take, hlen]
    omega
  · rw [List.length_drop, hlen]
    omega

/-- C1 witness: the boundary case from the spec, two real slides and a
required clone count of five. -/
theorem clones_generate_loop_windows_witness :
    (([0, 1] : List Nat) ≠ [] ∧ 0 < 5) ∧
    (((generate [0, 1] 5).take 5).length = 5 ∧
      ((generate [0, 1] 5).drop 5).length = 5 ∧
      (∀ (i : Nat), i < 5 →
        (((generate [0, 1] 5).take 5)[i]?).map Prod.fst
          = some ((i : Int) - ((5 : Nat) : Int))) ∧
      (∀ (i : Nat), i < 5 →
        (((generate [0, 1] 5).drop 5)[i]?).map Prod.fst
          = some ((([0, 1] : List Nat).length : Int) + (i : Int))) ∧
      (∀ p ∈ generate [0, 1] 5, p.2 ∈ ([0, 1] : List Nat))) :=
  ⟨⟨by decide, by decide⟩, clones_generate_loop_windows [0, 1] 5 (by decide) (by decide)⟩

/-- C2: for every non-loop slider type the computed clone count is `0`, no
clones are generated by `init`, and the registry holds exactly the
real-slide count. -/
theorem clones_count_zero_nonloop (c : CloneConfig) (slides : List Nat)
    (h : c.type ≠ LOOP) :
    computeCloneCount c = 0 ∧ clonesInit c slides = [] ∧
      registryLength c slides = slides.length := by
  have hc : computeCloneCount c = 0 := by
    simp [computeCloneCount, h]
  refine ⟨hc, ?_, ?_⟩
  · simp [clonesInit, hc]
  · simp [registryLength, clonesInit, hc]

/-- A concrete non-loop configuration used as a test vector. -/
def slideTypeCfg : CloneConfig where
  type := "slide"
  clones := 0
  drag := false
  flickMaxPages := 0
  perPage := 1
  autoWidth := false
  fixedSize := 0
  trackWidth := 500
  length := 3

/-- C2 witness: a concrete slide slider with three real slides. -/
theorem clones_count_zero_nonloop_witness :
    slideTypeCfg.type ≠ LOOP ∧
    (computeCloneCount slideTypeCfg = 0 ∧ clonesInit slideTypeCfg [0, 1, 2] = [] ∧
      registryLength slideTypeCfg [0, 1, 2] = ([0, 1, 2] : List Nat).length) :=
  ⟨by decide, clones_count_zero_nonloop slideTypeCfg [0, 1, 2] (by decide)⟩

/-- Written from the spec sentence of C3, word for word: the base count is
`ceil(track width / fixed slide size)` when a fixed size is set, otherwise
the real slide count under auto-width, otherwise the per-page option; the
base is multiplied by `2` when dragging is disabled and by
`flickMaxPages + 1` (defaulting `flickMaxPages` to `1`) when enabled. -/
def specCloneCount (c : CloneConfig) : Nat :=
  let base :=
    if c.fixedSize ≠ 0 then (c.trackWidth + c.fixedSize - 1) / c.fixedSize
    else if c.autoWidth then c.length
    else c.perPage
  base * (if c.drag then (if c.flickMaxPages = 0 then 1 else c.flickMaxPages) + 1 else 2)

/-- A loop configuration with a fixed size set but a zero track width. -/
def zeroTrackCfg : CloneConfig where
  type := "loop"
  clones := 0
  drag := false
  flickMaxPages := 0
  perPage := 3
  autoWidth := false
  fixedSize := 10
  trackWidth := 0
  length := 4

/-- C3 counterexample: with a fixed slide size of `10` but a track width of
`0` (so the ceiling is `0`), the code falls through to `perPage = 3` and
computes `6` clones, while the claimed formula yields `0`. -/
theorem clones_count_spec_formula_cex :
    computeCloneCount zeroTrackCfg = 6 ∧ specCloneCount zeroTrackCfg = 0 := by
  constructor <;> rfl

/-- Written from the amended C3: the base count is the first nonzero
candidate among `ceil(track width / fixed slide size)` (considered only when
a fixed size is set) and the real slide count (considered only under
auto-width), falling back to the per-page option; the multiplier is
unchanged. -/
def specCloneCountAmended (c : CloneConfig) : Nat :=
  let fixedCandidate :=
    (if c.fixedSize ≠ 0 then some ((c.trackWidth + c.fixedSize - 1) / c.fixedSize) else none).filter
      (fun n => n ≠ 0)
  let autoCandidate := (if c.autoWidth then some c.length else none).filter (fun n => n ≠ 0)
  let base := ((fixedCandidate.or autoCandidate).getD c.perPage)
  base * (if c.drag then (if c.flickMaxPages = 0 then 1 else c.flickMaxPages) + 1 else 2)

/-- C3 (amended): for every loop configuration without an explicit clone
count option, the computed clone count is the first nonzero base candidate —
the fixed-size ceiling, then the auto-width real count, then per-page —
times the drag-dependent safety factor. -/
theorem clones_count_amended (c : CloneConfig) (hl : c.type = LOOP) (ho : c.clones = 0) :
    computeCloneCount c = specCloneCountAmended c := by
  simp only [computeCloneCount, specCloneCountAmended, hl, ho]
  by_cases hf : c.fixedSize = 0
  · by_cases ha : c.autoWidth ∧ c.length ≠ 0
    · simp [hf, ha, Option.filter, ha.1, ha.2]
    · by_cases haw : c.autoWidth
      · have hlen : c.length = 0 := by
          by_contra hne
          exact ha ⟨haw, hne⟩
        simp [hf, haw, hlen, Option.filter]
      · simp [hf, haw, Option.filter]
  · by_cases hz : (c.trackWidth + c.fixedSize - 1) / c.fixedSize = 0
    · by_cases ha : c.autoWidth ∧ c.length ≠ 0
      · simp [hf, hz, ha, ha.1, ha.2, Option.filter]
      · by_cases haw : c.autoWidth
        · have hlen : c.length = 0 := by
            by_contra hne
            exact ha ⟨haw, hne⟩
          simp [hf, hz, haw, hlen, Option.filter]
        · simp [hf, hz, haw, Option.filter]
    · simp [hf, hz, Option.filter]

/-- A drag-enabled loop configuration with a fixed slide size. -/
def dragLoopCfg : CloneConfig where
  type := "loop"
  clones := 0
  drag := true
  flickMaxPages := 3
  perPage := 2
  autoWidth := false
  fixedSize := 100
  trackWidth := 450
  length := 6

/-- C3 witness: a drag-enabled loop slider with a fixed width of `100` on a
`450` pixel track: `ceil(450/100) = 5` and the factor is `flickMaxPages + 1
= 4`, so both formulas give `20`. -/
theorem clones_count_amended_witness :
    (dragLoopCfg.type = LOOP ∧ dragLoopCfg.clones = 0) ∧
      computeCloneCount dragLoopCfg = specCloneCountAmended dragLoopCfg :=
  ⟨⟨by decide, by decide⟩, clones_count_amended dragLoopCfg (by decide) (by decide)⟩

end Clones

namespace Core

/-- State constant from `constants/states.ts`. -/
def CREATED : Nat := 1

/-- State constant from `constants/states.ts`. -/
def MOUNTED : Nat := 2

/-- State constant from `constants/states.ts`. -/
def IDLE : Nat := 3

/-- State constant from `constants/states.ts`. -/
def MOVING : Nat := 4

/-- State constant from `constants/states.ts`. -/
def DRAGGING : Nat := 5

/-- State constant from `constants/states.ts`. -/
def DESTROYED : Nat := 6

/-- A component as the orchestrator sees it: its registry key and which of
the optional `setup` / `mount` / `destroy` hooks the instance exposes
(the class only ever calls `component.hook && component.hook()`). -/
structure ComponentSpec where
  key : String
  hasSetup : Bool
  hasMount : Bool
  hasDestroy : Bool
deriving DecidableEq

/-- Observable actions performed by `Splide.mount` / `Splide.destroy`:
component instantiation, the three hooks, event emissions on the bus,
`event.destroy()`, `state.set(...)` and adding the initialized class. -/
inductive Action where
  | instantiate (key : String)
  | setupHook (key : String)
  | mountHook (key : String)
  | destroyHook (key : String) (completely : Bool)
  | emit (event : String)
  | busDestroy
  | setState (st : Nat)
  | addInitializedClass
deriving DecidableEq

/-- The per-instance mutable state of the `Splide` class that `mount` and
`destroy` touch: the state cell, the component registry (in registration
order), the `splides` sync targets, the deferred-destroy handlers the class
registered on the `ready` event (each holding its bound `completely`
argument), and the accumulated action trace. -/
structure Model where
  state : Nat
  components : List ComponentSpec
  splides : List Nat
  readyHandlers : List Bool
  trace : List Action
deriving DecidableEq

/-- The actions of the non-deferred branch of `Splide.destroy`: every
component's `destroy( completely )` in the order `forOwn` yields the
registry (modelled from the spec: registration order), then
`emit( EVENT_DESTROY )`, then `event.destroy()`, then
`state.set( DESTROYED )`. -/
def teardownActions (cs : List ComponentSpec) (completely : Bool) : List Action :=
  (cs.filter fun c => c.hasDestroy).map (fun c => Action.destroyHook c.key completely)
    ++ [Action.emit "destroy", Action.busDestroy, Action.setState DESTROYED]

/-- Embedding of `Splide.destroy( completely )`: while the state is
`CREATED` the call only registers a deferred `destroy` on the `ready` event;
otherwise it performs the teardown, empties `splides` when `completely`, and
sets the state to `DESTROYED` (`event.destroy()` drops the deferred
handlers together with every other bus registration). -/
def destroyS (m : Model) (completely : Bool) : Model :=
  if m.state = CREATED then
    { m with readyHandlers := m.readyHandlers ++ [completely] }
  else
    { state := DESTROYED
      components := m.components
      splides := if completely then [] else m.splides
      readyHandlers := []
      trace := m.trace ++ teardownActions m.components completely }

/-- Emission of the `ready` event: every deferred-destroy handler runs, in
registration order. -/
def fireReady (m : Model) : Model :=
  m.readyHandlers.foldl (fun acc c => destroyS acc c) { m with readyHandlers := [] }

/-- Pass 1 of `Splide.mount`: each constructor is instantiated and its
optional `setup` hook invoked, in registry order (modelled from the spec:
`forOwn` iterates keys in insertion order). -/
def passOne (cs : List ComponentSpec) : List Action :=
  cs.flatMap fun c =>
    Action.instantiate c.key :: if c.hasSetup then [Action.setupHook c.key] else []

/-- Pass 2 of `Splide.mount`: each stored component's optional `mount` hook
is invoked, in the same registry order. -/
def passTwo (cs : List ComponentSpec) : List Action :=
  (cs.filter fun c => c.hasMount).map fun c => Action.mountHook c.key

/-- Embedding of `Splide.mount`: the state guard
`assert( state.is( [ CREATED, DESTROYED ] ), 'Already mounted!' )` (the
thrown assertion is the `Except.error`), then `state.set( CREATED )`, the
two passes, `emit( EVENT_MOUNTED )`, the initialized class,
`state.set( IDLE )` and `emit( EVENT_READY )` — which runs any deferred
destroy handlers. -/
def mountS (m : Model) (cs : List ComponentSpec) : Except String Model :=
  if m.state = CREATED ∨ m.state = DESTROYED then
    Except.ok (fireReady
      { state := IDLE
        components := cs
        splides := m.splides
        readyHandlers := m.readyHandlers
        trace := m.trace ++ Action.setState CREATED :: (passOne cs ++ passTwo cs
          ++ [Action.emit "mounted", Action.addInitializedClass,
              Action.setState IDLE, Action.emit "ready"]) })
  else
    Except.error "Already mounted!"

/-- A caller's view of `mount`: on the thrown assertion the instance is left
exactly as it was (the assert precedes every mutation in the source). -/
def tryMount (m : Model) (cs : List ComponentSpec) : Model × Bool :=
  match mountS m cs with
  | Except.ok m2 => (m2, true)
  | Except.error _ => (m, false)

theorem destroyS_trace_extends (m : Model) (c : Bool) :
    ∃ t, (destroyS m c).trace = m.trace ++ t := by
  unfold destroyS
  split
  · exact ⟨[], by simp⟩
  · exact ⟨teardownActions m.components c, rfl⟩

theorem foldl_destroyS_trace (hs : List Bool) (acc : Model) :
    ∃ t, (hs.foldl (fun a c => destroyS a c) acc).trace = acc.trace ++ t := by
  induction hs generalizing acc with
  | nil => exact ⟨[], by simp⟩
  | cons c hs ih =>
      rcases destroyS_trace_extends acc c with ⟨t1, h1⟩
      rcases ih (destroyS acc c) with ⟨t2, h2⟩
      exact ⟨t1 ++ t2, by simp [List.foldl_cons, h2, h1]⟩

theorem fireReady_trace_extends (m : Model) :
    ∃ t, (fireReady m).trace = m.trace ++ t := by
  unfold fireReady
  exact foldl_destroyS_trace m.readyHandlers _

/-- C4: `mount` called while the state is neither `Created` nor `Destroyed`
fails the `'Already mounted!'` assertion and leaves the instance exactly as
it was: no state change and no component instantiation. -/
theorem splide_mount_guard (m : Model) (cs : List ComponentSpec)
    (h1 : m.state ≠ CREATED) (h2 : m.state ≠ DESTROYED) :
    mountS m cs = Except.error "Already mounted!" ∧ tryMount m cs = (m, false) := by
  have hno : ¬ (m.state = CREATED ∨ m.state = DESTROYED) := by tauto
  refine ⟨by simp [mountS, hno], ?_⟩
  simp [tryMount, mountS, hno]

/-- A concrete component list standing in for the built-in constructors. -/
def demoComponents : List ComponentSpec :=
  [⟨"Options", true, true, true⟩, ⟨"Clones", false, true, true⟩,
    ⟨"Transition", false, true, false⟩]

/-- A freshly constructed instance: state `CREATED`, nothing mounted. -/
def freshModel : Model where
  state := CREATED
  components := []
  splides := []
  readyHandlers := []
  trace := []

/-- C4 witness: mounting a fresh instance and then mounting again without an
intervening destroy is refused and changes nothing. -/
theorem splide_mount_guard_witness :
    ((tryMount freshModel demoComponents).1.state ≠ CREATED ∧
      (tryMount freshModel demoComponents).1.state ≠ DESTROYED) ∧
    (mountS (tryMount freshModel demoComponents).1 demoComponents
        = Except.error "Already mounted!" ∧
      tryMount (tryMount freshModel demoComponents).1 demoComponents
        = ((tryMount freshModel demoComponents).1, false)) :=
  ⟨⟨by decide, by decide⟩,
    splide_mount_guard (tryMount freshModel demoComponents).1 demoComponents
      (by decide) (by decide)⟩

theorem passOne_setup_mem (cs : List ComponentSpec) :
    ∀ c ∈ cs, c.hasSetup → Action.setupHook c.key ∈ passOne cs := by
  intro c hc hset
  exact List.mem_flatMap.mpr ⟨c, hc, by simp [hset]⟩

theorem passOne_no_mountHook (cs : List ComponentSpec) :
    ∀ a ∈ Action.setState CREATED :: passOne cs, ∀ k, a ≠ Action.mountHook k := by
  intro a ha k
  rcases List.mem_cons.mp ha with h | h
  · subst h
    intro hk
    cases hk
  · rcases List.mem_flatMap.mp h with ⟨c, _, hmem⟩
    rcases List.mem_cons.mp hmem with h2 | h2
    · subst h2
      intro hk
      cases hk
    · intro hk
      subst hk
      by_cases hs : c.hasSetup = true <;> simp [hs] at h2

theorem passTwo_mount_mem (cs : List ComponentSpec) :
    ∀ c ∈ cs, c.hasMount → Action.mountHook c.key ∈ passTwo cs := by
  intro c hc hm
  exact List.mem_map.mpr ⟨c, List.mem_filter.mpr ⟨hc, hm⟩, rfl⟩

theorem passTwo_only_mountHook (cs : List ComponentSpec) :
    ∀ a ∈ passTwo cs, ∃ k, a = Action.mountHook k := by
  intro a ha
  rcases List.mem_map.mp ha with ⟨c, _, rfl⟩
  exact ⟨c.key, rfl⟩

theorem fireReady_nil (m : Model) (h : m.readyHandlers = []) :
    fireReady m = { m with readyHandlers := [] } := by
  unfold fireReady
  rw [h]
  rfl

/-- C5: a successful `mount` runs in two passes — a first segment containing
the `setup` hook of every component that has one and no `mount` hook at all,
then a segment of nothing but `mount` hooks containing the `mount` hook of
every component that has one — after which `mounted` is emitted, the state is
set to `Idle`, and `ready` is emitted; when no deferred destroy is pending
nothing follows and the instance ends in the `Idle` state. -/
theorem splide_mount_sequence (m : Model) (cs : List ComponentSpec)
    (h : m.state = CREATED ∨ m.state = DESTROYED) :
    ∃ m2, mountS m cs = Except.ok m2 ∧
      ∃ t3,
        m2.trace = m.trace ++ (Action.setState CREATED :: passOne cs) ++ passTwo cs
          ++ [Action.emit "mounted", Action.addInitializedClass,
              Action.setState IDLE, Action.emit "ready"] ++ t3 ∧
        (∀ c ∈ cs, c.hasSetup →
          Action.setupHook c.key ∈ Action.setState CREATED :: passOne cs) ∧
        (∀ a ∈ Action.setState CREATED :: passOne cs, ∀ k, a ≠ Action.mountHook k) ∧
        (∀ c ∈ cs, c.hasMount → Action.mountHook c.key ∈ passTwo cs) ∧
        (∀ a ∈ passTwo cs, ∃ k, a = Action.mountHook k) ∧
        (m.readyHandlers = [] → t3 = [] ∧ m2.state = IDLE) := by
  rw [mountS, if_pos h]
  set b : Model :=
    { state := IDLE
      components := cs
      splides := m.splides
      readyHandlers := m.readyHandlers
      trace := m.trace ++ Action.setState CREATED :: (passOne cs ++ passTwo cs
        ++ [Action.emit "mounted", Action.addInitializedClass,
            Action.setState IDLE, Action.emit "ready"]) } with hb
  refine ⟨fireReady b, rfl, ?_⟩
  rcases fireReady_trace_extends b with ⟨t3, ht3⟩
  refine ⟨t3, ?_, fun c hc hs => List.mem_cons_of_mem _ (passOne_setup_mem cs c hc hs),
    passOne_no_mountHook cs, passTwo_mount_mem cs, passTwo_only_mountHook cs, ?_⟩
  · rw [ht3, hb]
    simp
  · intro hrd
    have hrb : b.readyHandlers = [] := by
      rw [hb]
      exact hrd
    rw [fireReady_nil b hrb] at ht3 ⊢
    constructor
    · have hlen := congrArg List.length ht3
      simp only [List.length_append] at hlen
      exact List.eq_nil_of_length_eq_zero (by omega)
    · rw [hb]

/-- C5 witness: mounting a fresh instance with the demo component list. -/
theorem splide_mount_sequence_witness :
    (freshModel.state = CREATED ∨ freshModel.state = DESTROYED) ∧
    (∃ m2, mountS freshModel demoComponents = Except.ok m2 ∧
      ∃ t3,
        m2.trace = freshModel.trace
          ++ (Action.setState CREATED :: passOne demoComponents) ++ passTwo demoComponents
          ++ [Action.emit "mounted", Action.addInitializedClass,
              Action.setState IDLE, Action.emit "ready"] ++ t3 ∧
        (∀ c ∈ demoComponents, c.hasSetup →
          Action.setupHook c.key ∈ Action.setState CREATED :: passOne demoComponents) ∧
        (∀ a ∈ Action.setState CREATED :: passOne demoComponents,
          ∀ k, a ≠ Action.mountHook k) ∧
        (∀ c ∈ demoComponents, c.hasMount → Action.mountHook c.key ∈ passTwo demoComponents) ∧
        (∀ a ∈ passTwo demoComponents, ∃ k, a = Action.mountHook k) ∧
        (freshModel.readyHandlers = [] → t3 = [] ∧ m2.state = IDLE)) :=
  ⟨by decide, splide_mount_sequence freshModel demoComponents (by decide)⟩

/-- C6: `destroy` on an instance still in the `Created` state performs no
teardown — the state cell, registry and trace are untouched and only a
deferred handler on `ready` is recorded — while `destroy` in any other state
tears down immediately and ends in the `Destroyed` state; and the deferred
teardown runs automatically when `ready` fires at the end of a later
`mount`, leaving the instance destroyed. -/
theorem splide_destroy_deferred (m : Model) (c : Bool) :
    (m.state = CREATED →
      destroyS m c = { m with readyHandlers := m.readyHandlers ++ [c] }) ∧
    (m.state ≠ CREATED →
      (destroyS m c).state = DESTROYED ∧
        (destroyS m c).trace = m.trace ++ teardownActions m.components c) ∧
    (m.state = CREATED → m.readyHandlers = [] → ∀ cs,
      ∃ m2, mountS (destroyS m c) cs = Except.ok m2 ∧ m2.state = DESTROYED ∧
        ∃ t, m2.trace = t ++ teardownActions cs c) := by
  refine ⟨fun h => by rw [destroyS, if_pos h], fun h => ?_, fun h hrd cs => ?_⟩
  · rw [destroyS, if_neg h]
    exact ⟨rfl, rfl⟩
  · rw [destroyS, if_pos h, mountS]
    simp only [h, hrd, true_or, if_true]
    refine ⟨_, rfl, ?_, ?_⟩
    · rfl
    · exact ⟨_, rfl⟩

/-- An already mounted (idle) instance with live components and a sync
target. -/
def idleModel : Model where
  state := IDLE
  components := demoComponents
  splides := [7]
  readyHandlers := []
  trace := []

/-- C6 witness: a deferred destroy on a fresh instance changes nothing but
the pending handler and runs once `ready` fires after `mount`; an immediate
destroy on an idle instance tears down at once. -/
theorem splide_destroy_deferred_witness :
    (freshModel.state = CREATED ∧ freshModel.readyHandlers = [] ∧
      idleModel.state ≠ CREATED) ∧
    (destroyS freshModel true
        = { freshModel with readyHandlers := freshModel.readyHandlers ++ [true] } ∧
      ((destroyS idleModel true).state = DESTROYED ∧
        (destroyS idleModel true).trace
          = idleModel.trace ++ teardownActions idleModel.components true) ∧
      (∃ m2, mountS (destroyS freshModel true) demoComponents = Except.ok m2 ∧
        m2.state = DESTROYED ∧ ∃ t, m2.trace = t ++ teardownActions demoComponents true)) :=
  ⟨⟨by decide, by decide, by decide⟩,
    (splide_destroy_deferred freshModel true).1 (by decide),
    (splide_destroy_deferred idleModel true).2.1 (by decide),
    (splide_destroy_deferred freshModel true).2.2 (by decide) (by decide) demoComponents⟩

/-- C7: a non-deferred `destroy` runs the `destroy` hook of exactly the
components that expose one, in registration order, then emits `destroy`,
then clears the Event Bus (dropping also the deferred handlers), sets the
state to `Destroyed`, and empties the cross-instance `splides` links exactly
when the `completely` flag is set. -/
theorem splide_destroy_teardown (m : Model) (c : Bool) (h : m.state ≠ CREATED) :
    (destroyS m c).trace
        = m.trace
          ++ (m.components.filter fun k => k.hasDestroy).map
              (fun k => Action.destroyHook k.key c)
          ++ [Action.emit "destroy", Action.busDestroy, Action.setState DESTROYED] ∧
      (destroyS m c).readyHandlers = [] ∧
      (destroyS m c).splides = (if c then [] else m.splides) ∧
      (destroyS m c).state = DESTROYED := by
  rw [destroyS, if_neg h]
  exact ⟨by simp [teardownActions], rfl, rfl, rfl⟩

/-- C7 witness: tearing down the idle instance, fully and partially. -/
theorem splide_destroy_teardown_witness :
    (idleModel.state ≠ CREATED) ∧
    ((destroyS idleModel true).trace
        = idleModel.trace
          ++ (idleModel.components.filter fun k => k.hasDestroy).map
              (fun k => Action.destroyHook k.key true)
          ++ [Action.emit "destroy", Action.busDestroy, Action.setState DESTROYED] ∧
      (destroyS idleModel true).readyHandlers = [] ∧
      (destroyS idleModel true).splides = (if true then [] else idleModel.splides) ∧
      (destroyS idleModel true).state = DESTROYED) ∧
    ((destroyS idleModel false).splides = (if false then [] else idleModel.splides)) :=
  ⟨by decide, splide_destroy_teardown idleModel true (by decide),
    (splide_destroy_teardown idleModel false (by decide)).2.2.1⟩

end Core

namespace SlideComp

/-- Event name from `constants/events.ts`. -/
def EVENT_ACTIVE : String := "active"

/-- Event name from `constants/events.ts`. -/
def EVENT_INACTIVE : String := "inactive"

/-- Event name from `constants/events.ts`. -/
def EVENT_VISIBLE : String := "visible"

/-- Event name from `constants/events.ts`. -/
def EVENT_HIDDEN : String := "hidden"

/-- The DOM state of one slide element that `updateActivity` and
`updateVisibility` read and write: the `is-active` / `is-visible` status
classes and the attributes they maintain (`aria-current`, `aria-hidden`,
`tabindex` on the slide and on its focusable descendants; `none` models a
removed attribute). -/
structure SlideDom where
  hasActiveClass : Bool
  hasVisibleClass : Bool
  ariaCurrent : Option Bool
  ariaHidden : Option Bool
  tabIndex : Option Int
  focusableTabIndex : Option Int
deriving DecidableEq

/-- Embedding of `Slide.updateActivity( active )`: only when `active`
differs from `hasClass( slide, CLASS_ACTIVE )` is the class toggled,
`aria-current` maintained (for navigation sliders), and the
`active`/`inactive` event emitted; the emitted events are returned. -/
def updateActivity (isNavigation : Bool) (active : Bool) (s : SlideDom) :
    SlideDom × List String :=
  if active ≠ s.hasActiveClass then
    ({ s with
        hasActiveClass := active
        ariaCurrent :=
          if isNavigation then (if active then some true else none) else s.ariaCurrent },
      [if active then EVENT_ACTIVE else EVENT_INACTIVE])
  else
    (s, [])

/-- Embedding of `Slide.updateVisibility( visible )`: the `aria-hidden` /
`tabindex` attributes are maintained unconditionally from
`hidden = !visible && ( !isActive() || isClone )`, but the `is-visible`
class is toggled and the `visible`/`hidden` event emitted only when
`visible` differs from `hasClass( slide, CLASS_VISIBLE )`. -/
def updateVisibility (visible isActiveNow isClone slideFocus : Bool) (s : SlideDom) :
    SlideDom × List String :=
  let hidden := !visible && (!isActiveNow || isClone)
  let s1 : SlideDom :=
    { s with
        ariaHidden := if hidden then some true else none
        tabIndex := if !hidden && slideFocus then some 0 else none
        focusableTabIndex := if hidden then some (-1) else none }
  if visible ≠ s.hasVisibleClass then
    ({ s1 with hasVisibleClass := visible },
      [if visible then EVENT_VISIBLE else EVENT_HIDDEN])
  else
    (s1, [])

/-- C8: `updateActivity` emits exactly one `active`/`inactive` event when
the active flag changed and nothing when it is unchanged, and likewise
`updateVisibility` for `visible`/`hidden`; repeating either update with the
same flag emits nothing. -/
theorem slide_update_events_on_change (nav active visible act clone focus : Bool)
    (s : SlideDom) :
    ((updateActivity nav active s).2
        = if active = s.hasActiveClass then []
          else [if active then EVENT_ACTIVE else EVENT_INACTIVE]) ∧
    ((updateActivity nav active (updateActivity nav active s).1).2 = []) ∧
    ((updateVisibility visible act clone focus s).2
        = if visible = s.hasVisibleClass then []
          else [if visible then EVENT_VISIBLE else EVENT_HIDDEN]) ∧
    ((updateVisibility visible act clone focus
        (updateVisibility visible act clone focus s).1).2 = []) := by
  refine ⟨?_, ?_, ?_, ?_⟩
  · by_cases h : active = s.hasActiveClass <;> simp [updateActivity, h]
  · by_cases h : active = s.hasActiveClass <;> simp [updateActivity, h]
  · by_cases h : visible = s.hasVisibleClass <;> simp [updateVisibility, h]
  · by_cases h : visible = s.hasVisibleClass <;> simp [updateVisibility, h]

end SlideComp

namespace Layout

/-- A slide handle as the Layout component consumes it: the placement index
`getAt` matches on, the clone flag `getLength( true )` excludes, and the
measured geometry along the resolved axis (`width`, `left`, `right` of the
slide rect and the applied gap margin). -/
structure SlideHandle where
  index : Int
  isClone : Bool
  width : Int
  left : Int
  right : Int
  marginRight : Int
deriving DecidableEq

/-- Modelled from the spec: `Slides.getAt( index )` (the Slides component is
not among the sources) returns the handle whose placement index matches, or
nothing. -/
def getAt (reg : List SlideHandle) (i : Int) : Option SlideHandle :=
  reg.find? fun s => s.index == i

/-- Modelled from the spec: `Slides.getLength( true )` counts the real
slides only. -/
def getLength (reg : List SlideHandle) (excludeClones : Bool) : Nat :=
  if excludeClones then (reg.filter fun s => !s.isClone).length else reg.length

/-- Embedding of `Layout.getGap`: the first slide's resolved margin, or `0`
when no slide exists. -/
def getGap (reg : List SlideHandle) : Int :=
  match getAt reg 0 with
  | some s => s.marginRight
  | none => 0

/-- Embedding of `Layout.slideSize( index, withoutGap )`: the slide rect
extent plus the gap, or `0` when the registry has no handle at the index
(`index || 0` is the identity on our integer model). -/
def slideSize (reg : List SlideHandle) (index : Int) (withoutGap : Bool) : Int :=
  match getAt reg index with
  | some s => s.width + (if withoutGap then 0 else getGap reg)
  | none => 0

/-- Embedding of `Layout.totalSize( index, withoutGap )`: the absolute
distance from the list edge to the slide's far edge plus the gap, or `0`
when the registry has no handle at the index. -/
def totalSize (reg : List SlideHandle) (listLeft : Int) (index : Int) (withoutGap : Bool) :
    Int :=
  match getAt reg index with
  | some s => |s.right - listLeft| + (if withoutGap then 0 else getGap reg)
  | none => 0

/-- Embedding of `Layout.sliderSize`: the span from the first real slide to
the last, or `0` unless both exist. -/
def sliderSize (reg : List SlideHandle) : Int :=
  match getAt reg 0, getAt reg ((getLength reg true : Int) - 1) with
  | some first, some last => last.right - first.left
  | _, _ => 0

/-- C9: with zero slides every layout size query answers `0` instead of
failing: `slideSize`, `totalSize` and `sliderSize` all return `0` on the
empty registry, for every queried index. -/
theorem layout_zero_slides_sizes (index listLeft : Int) (withoutGap : Bool) :
    slideSize [] index withoutGap = 0 ∧ totalSize [] listLeft index withoutGap = 0 ∧
      sliderSize [] = 0 := by
  refine ⟨?_, ?_, ?_⟩ <;> simp [slideSize, totalSize, sliderSize, getAt, List.find?]

end Layout

namespace MergeUtil

/-- JS property lookup on an object's own entries (insertion-ordered). -/
def lookupAL {α : Type} : List (String × α) → String → Option α
  | [], _ => none
  | (k, v) :: rest, key => if k = key then some v else lookupAL rest key

/-- JS property assignment `object[ key ] = value`: an existing key keeps
its position and gets the new value, a new key is appended in insertion
order (JS objects never hold a key twice). -/
def setKeyAL {α : Type} : List (String × α) → String → α → List (String × α)
  | [], key, v => [(key, v)]
  | (k, w) :: rest, key, v =>
      if k = key then (key, v) :: rest else (k, w) :: setKeyAL rest key v

theorem lookupAL_setKeyAL_self {α : Type} (es : List (String × α)) (key : String) (v : α) :
    lookupAL (setKeyAL es key v) key = some v := by
  induction es with
  | nil => simp [setKeyAL, lookupAL]
  | cons p rest ih =>
      rcases p with ⟨k, w⟩
      by_cases h : k = key <;> simp [setKeyAL, lookupAL, h, ih]

theorem lookupAL_setKeyAL_other {α : Type} (es : List (String × α)) (key k : String)
    (v : α) (h : k ≠ key) : lookupAL (setKeyAL es k v) key = lookupAL es key := by
  induction es with
  | nil => simp [setKeyAL, lookupAL, h]
  | cons p rest ih =>
      rcases p with ⟨k1, w⟩
      by_cases h1 : k1 = k
      · subst h1
        simp [setKeyAL, lookupAL, h, ih]
      · by_cases h2 : k1 = key <;> simp [setKeyAL, lookupAL, h1, h2, Ne.symm h, ih]

theorem setKeyAL_mem {α : Type} (es : List (String × α)) (key : String) (v : α) :
    ∀ p ∈ setKeyAL es key v, p ∈ es ∨ p = (key, v) := by
  induction es with
  | nil => simp [setKeyAL]
  | cons q rest ih =>
      rcases q with ⟨k, w⟩
      intro p hp
      by_cases h : k = key
      · simp only [setKeyAL, if_pos h] at hp
        rcases List.mem_cons.mp hp with h1 | h1
        · exact Or.inr h1
        · exact Or.inl (List.mem_cons_of_mem _ h1)
      · simp only [setKeyAL, if_neg h] at hp
        rcases List.mem_cons.mp hp with h1 | h1
        · exact Or.inl (h1 ▸ List.mem_cons_self _ _)
        · rcases ih p h1 with h2 | h2
          · exact Or.inl (List.mem_cons_of_mem _ h2)
          · exact Or.inr h2

/-- A JS value as `merge` sees it in the alias-free (tree) view: a scalar,
an array (which in JS may also carry named properties), or a plain object,
each object/array holding its own entries in insertion order. -/
inductive JVal where
  | prim (n : Int)
  | arr (elems : List JVal) (props : List (String × JVal))
  | obj (props : List (String × JVal))

/-- Embedding of `merge( object, source )` on object trees, following the
source line by line: `forOwn( source, ... )` walks the entries in insertion
order; an array value is assigned as `value.slice()` (elements copied, named
properties dropped); an object value is merged into `object[ key ]` when
`isObject( object[ key ] )` holds — which in JS is true for arrays as well —
and into a fresh `{}` otherwise; any other value is assigned as is. -/
def mergeJ : List (String × JVal) → List (String × JVal) → List (String × JVal)
  | ob, [] => ob
  | ob, (key, JVal.prim n) :: rest => mergeJ (setKeyAL ob key (JVal.prim n)) rest
  | ob, (key, JVal.arr elems _) :: rest =>
      mergeJ (setKeyAL ob key (JVal.arr elems [])) rest
  | ob, (key, JVal.obj entries) :: rest =>
      match lookupAL ob key with
      | some (JVal.obj t) => mergeJ (setKeyAL ob key (JVal.obj (mergeJ t entries))) rest
      | some (JVal.arr el t) =>
          mergeJ (setKeyAL ob key (JVal.arr el (mergeJ t entries))) rest
      | _ => mergeJ (setKeyAL ob key (JVal.obj (mergeJ [] entries))) rest
termination_by ob src => sizeOf src
decreasing_by all_goals (simp_wf <;> omega)

/-- A heap value: a primitive or a reference to a heap object. -/
inductive HVal where
  | prim (n : Int)
  | ref (a : Nat)
deriving DecidableEq

/-- A heap object: a plain object, or an array with its elements and (as in
JS) optional named properties. -/
inductive HObj where
  | obj (props : List (String × HVal))
  | arr (elems : List HVal) (props : List (String × HVal))
deriving DecidableEq

/-- The heap: objects addressed by their index; allocation appends. -/
abbrev Store := List HObj

/-- The named properties of a heap object. -/
def propsOf : HObj → List (String × HVal)
  | HObj.obj ps => ps
  | HObj.arr _ ps => ps

/-- Replaces the named properties of a heap object, keeping array elements. -/
def withProps : HObj → List (String × HVal) → HObj
  | HObj.obj _, ps => HObj.obj ps
  | HObj.arr el _, ps => HObj.arr el ps

/-- Reads `object[ key ]` at heap address `a`. -/
def getEntry (st : Store) (a : Nat) (key : String) : Option HVal :=
  match st[a]? with
  | some o => lookupAL (propsOf o) key
  | none => none

/-- Writes `object[ key ] = v` at heap address `a`. -/
def setEntry (st : Store) (a : Nat) (key : String) (v : HVal) : Store :=
  match st[a]? with
  | some o => st.set a (withProps o (setKeyAL (propsOf o) key v))
  | none => st

/-- The source argument of `merge` as a tree (the terminating case of the
JS recursion): scalars, arrays whose elements are heap values copied
shallowly by `slice()`, and nested source objects. -/
inductive SVal where
  | prim (n : Int)
  | arr (elems : List HVal)
  | obj (entries : List (String × SVal))

/-- The target of the recursive call in the object branch of `merge`:
`isObject( object[ key ] ) ? object[ key ] : {}` — the referenced heap
object when `object[ key ]` is a (valid) reference, a freshly allocated
empty object otherwise. -/
def mergeTarget (st : Store) (a : Nat) (key : String) : Store × Nat :=
  match getEntry st a key with
  | some (HVal.ref b) =>
      if b < st.length then (st, b) else (st ++ [HObj.obj []], st.length)
  | _ => (st ++ [HObj.obj []], st.length)

/-- Embedding of `merge( object, source )` over the heap, keeping reference
behaviour: the target `object` is the address `a` and is mutated in place;
`value.slice()` allocates a fresh array object; an object value recurses
into `object[ key ]` when that is a reference (JS `isObject`), into a fresh
`{}` otherwise, and stores the returned reference back; `merge` returns its
first argument. -/
def mergeH (st : Store) (a : Nat) : List (String × SVal) → Store × Nat
  | [] => (st, a)
  | (key, SVal.prim n) :: rest => mergeH (setEntry st a key (HVal.prim n)) a rest
  | (key, SVal.arr elems) :: rest =>
      mergeH (setEntry (st ++ [HObj.arr elems []]) a key (HVal.ref st.length)) a rest
  | (key, SVal.obj entries) :: rest =>
      let merged := mergeH (mergeTarget st a key).1 (mergeTarget st a key).2 entries
      mergeH (setEntry merged.1 a key (HVal.ref merged.2)) a rest
termination_by src => sizeOf src
decreasing_by all_goals (simp_wf <;> omega)

theorem lookupAL_mem {α : Type} (es : List (String × α)) (key : String) (v : α)
    (h : lookupAL es key = some v) : (key, v) ∈ es := by
  induction es with
  | nil => simp [lookupAL] at h
  | cons p rest ih =>
      rcases p with ⟨k, w⟩
      by_cases hk : k = key
      · subst hk
        simp [lookupAL] at h
        subst h
        exact List.mem_cons_self _ _
      · simp [lookupAL, hk] at h
        exact List.mem_cons_of_mem _ (ih h)

theorem mem_of_getElem?_some {α : Type} {l : List α} {n : Nat} {a : α}
    (h : l[n]? = some a) : a ∈ l := by
  rcases List.getElem?_eq_some.mp h with ⟨hlt, hv⟩
  exact hv ▸ List.getElem_mem hlt

theorem lt_of_getElem?_some {α : Type} {l : List α} {n : Nat} {a : α}
    (h : l[n]? = some a) : n < l.length :=
  (List.getElem?_eq_some.mp h).1

theorem propsOf_withProps (o : HObj) (ps : List (String × HVal)) :
    propsOf (withProps o ps) = ps := by
  cases o <;> rfl

theorem setEntry_length (st : Store) (a : Nat) (k : String) (v : HVal) :
    (setEntry st a k v).length = st.length := by
  unfold setEntry
  split <;> simp

theorem getEntry_setEntry_ne_addr (st : Store) (x c : Nat) (k key : String) (v : HVal)
    (h : c ≠ x) : getEntry (setEntry st c k v) x key = getEntry st x key := by
  unfold setEntry
  rcases hc : st[c]? with _ | o <;> simp only [hc]
  unfold getEntry
  rw [List.getElem?_set_ne h]

theorem getEntry_setEntry_self (st : Store) (a : Nat) (k : String) (v : HVal)
    (h : a < st.length) : getEntry (setEntry st a k v) a k = some v := by
  have hsome : st[a]? = some st[a] := List.getElem?_eq_getElem h
  unfold setEntry
  simp only [hsome]
  unfold getEntry
  simp only [List.getElem?_set_self h, propsOf_withProps]
  exact lookupAL_setKeyAL_self _ _ _

theorem getEntry_setEntry_ne_key (st : Store) (a : Nat) (k key : String) (v : HVal)
    (h : k ≠ key) : getEntry (setEntry st a k v) a key = getEntry st a key := by
  unfold setEntry
  rcases hsome : st[a]? with _ | o <;> simp only [hsome]
  have hlt : a < st.length := lt_of_getElem?_some hsome
  unfold getEntry
  simp only [List.getElem?_set_self hlt, hsome, propsOf_withProps]
  exact lookupAL_setKeyAL_other _ _ _ _ h

theorem getEntry_append_left (st : Store) (o : HObj) (x : Nat) (key : String)
    (h : x < st.length) : getEntry (st ++ [o]) x key = getEntry st x key := by
  unfold getEntry
  rw [List.getElem?_append_left h]

/-- No named property anywhere in the store references address `x` (array
elements may; they are never merge targets). -/
def NoPropRefTo (st : Store) (x : Nat) : Prop :=
  ∀ o ∈ st, ∀ p ∈ propsOf o, p.2 ≠ HVal.ref x

theorem NoPropRefTo_setEntry (st : Store) (c : Nat) (k : String) (v : HVal) (x : Nat)
    (h : NoPropRefTo st x) (hv : v ≠ HVal.ref x) : NoPropRefTo (setEntry st c k v) x := by
  unfold setEntry
  split
  · next o heq =>
      intro q hq p hp
      rcases List.mem_or_eq_of_mem_set hq with hq1 | hq1
      · exact h q hq1 p hp
      · subst hq1
        rw [propsOf_withProps] at hp
        rcases setKeyAL_mem _ _ _ p hp with hp1 | hp1
        · exact h o (mem_of_getElem?_some heq) p hp1
        · subst hp1
          exact hv
  · exact h

theorem NoPropRefTo_append (st : Store) (x : Nat) (o : HObj) (h : NoPropRefTo st x)
    (ho : propsOf o = []) : NoPropRefTo (st ++ [o]) x := by
  intro q hq p hp
  rcases List.mem_append.mp hq with hq1 | hq1
  · exact h q hq1 p hp
  · have : q = o := by simpa using hq1
    subst this
    rw [ho] at hp
    simp at hp

theorem mergeTarget_fst (st : Store) (a : Nat) (key : String) :
    (mergeTarget st a key).1 = st ∨ (mergeTarget st a key).1 = st ++ [HObj.obj []] := by
  unfold mergeTarget
  split
  · split
    · exact Or.inl rfl
    · exact Or.inr rfl
  · exact Or.inr rfl

theorem mergeTarget_length (st : Store) (a : Nat) (key : String) :
    st.length ≤ (mergeTarget st a key).1.length := by
  rcases mergeTarget_fst st a key with h | h <;> rw [h] <;> simp

theorem mergeTarget_snd_lt (st : Store) (a : Nat) (key : String) :
    (mergeTarget st a key).2 < (mergeTarget st a key).1.length := by
  unfold mergeTarget
  split
  · next b _ =>
      split
      · next hb => simpa using hb
      · simp
  · simp

theorem mergeTarget_snd_ne (st : Store) (a : Nat) (key : String) (x : Nat)
    (hx : x < st.length) (h : NoPropRefTo st x) : (mergeTarget st a key).2 ≠ x := by
  unfold mergeTarget
  split
  · next b heq =>
      split
      · next hb =>
          unfold getEntry at heq
          simp only []
          rcases hsome : st[a]? with _ | o
          · rw [hsome] at heq
            simp at heq
          · rw [hsome] at heq
            have hmem := lookupAL_mem _ _ _ heq
            have := h o (mem_of_getElem?_some hsome) (key, HVal.ref b) hmem
            intro hxb
            exact this (by rw [hxb])
      · simp only []
        omega
  · simp only []
    omega

theorem NoPropRefTo_mergeTarget (st : Store) (a : Nat) (key : String) (x : Nat)
    (h : NoPropRefTo st x) : NoPropRefTo (mergeTarget st a key).1 x := by
  rcases mergeTarget_fst st a key with h1 | h1 <;> rw [h1]
  · exact h
  · exact NoPropRefTo_append st x _ h rfl

theorem getEntry_mergeTarget (st : Store) (a : Nat) (key : String) (x : Nat)
    (hx : x < st.length) (key2 : String) :
    getEntry (mergeTarget st a key).1 x key2 = getEntry st x key2 := by
  rcases mergeTarget_fst st a key with h1 | h1 <;> rw [h1]
  exact getEntry_append_left st _ x key2 hx

theorem mergeH_snd (st : Store) (a : Nat) (src : List (String × SVal)) :
    (mergeH st a src).2 = a := by
  induction st, a, src using mergeH.induct with
  | case1 st a => simp [mergeH]
  | case2 st a key n rest ih => simpa [mergeH] using ih
  | case3 st a key elems rest ih => simpa [mergeH] using ih
  | case4 st a key entries rest md ihe ihr => simpa [mergeH] using ihr

theorem mergeH_preserve (st : Store) (a : Nat) (src : List (String × SVal)) :
    ∀ x, x < st.length → NoPropRefTo st x →
      st.length ≤ (mergeH st a src).1.length ∧
      NoPropRefTo (mergeH st a src).1 x ∧
      (a ≠ x → ∀ key2, getEntry (mergeH st a src).1 x key2 = getEntry st x key2) := by
  induction st, a, src using mergeH.induct with
  | case1 st a =>
      intro x hx hn
      exact ⟨by simp [mergeH], by simpa [mergeH] using hn, fun _ key2 => by simp [mergeH]⟩
  | case2 st a key n rest ih =>
      intro x hx hn
      simp only [mergeH]
      have hlen1 : (setEntry st a key (HVal.prim n)).length = st.length :=
        setEntry_length st a key _
      have hn1 : NoPropRefTo (setEntry st a key (HVal.prim n)) x :=
        NoPropRefTo_setEntry st a key _ x hn (fun hh => HVal.noConfusion hh)
      obtain ⟨l1, l2, l3⟩ := ih x (by omega) hn1
      refine ⟨by omega, l2, fun hax key2 => ?_⟩
      rw [l3 hax key2, getEntry_setEntry_ne_addr st x a key key2 _ hax]
  | case3 st a key elems rest ih =>
      intro x hx hn
      simp only [mergeH]
      have hlen1 : (setEntry (st ++ [HObj.arr elems []]) a key
          (HVal.ref st.length)).length = st.length + 1 := by
        rw [setEntry_length]
        simp
      have hn0 : NoPropRefTo (st ++ [HObj.arr elems []]) x :=
        NoPropRefTo_append st x _ hn rfl
      have hn1 : NoPropRefTo (setEntry (st ++ [HObj.arr elems []]) a key
          (HVal.ref st.length)) x := by
        refine NoPropRefTo_setEntry _ a key _ x hn0 ?_
        intro hh
        injection hh with h2
        omega
      obtain ⟨l1, l2, l3⟩ := ih x (by omega) hn1
      refine ⟨by omega, l2, fun hax key2 => ?_⟩
      rw [l3 hax key2, getEntry_setEntry_ne_addr _ x a key key2 _ hax,
        getEntry_append_left st _ x key2 hx]
  | case4 st a key entries rest md ihe ihr =>
      intro x hx hn
      have hmd : md = mergeH (mergeTarget st a key).1 (mergeTarget st a key).2 entries :=
        rfl
      rw [hmd] at ihr
      simp only [mergeH]
      have htl := mergeTarget_length st a key
      have htn : NoPropRefTo (mergeTarget st a key).1 x :=
        NoPropRefTo_mergeTarget st a key x hn
      have htne : (mergeTarget st a key).2 ≠ x := mergeTarget_snd_ne st a key x hx hn
      obtain ⟨m1, m2, m3⟩ := ihe x (by omega) htn
      have hsnd : (mergeH (mergeTarget st a key).1 (mergeTarget st a key).2 entries).2
          = (mergeTarget st a key).2 := mergeH_snd _ _ _
      have hlen2 : (setEntry
            (mergeH (mergeTarget st a key).1 (mergeTarget st a key).2 entries).1 a key
            (HVal.ref (mergeH (mergeTarget st a key).1
              (mergeTarget st a key).2 entries).2)).length
          = (mergeH (mergeTarget st a key).1 (mergeTarget st a key).2 entries).1.length :=
        setEntry_length _ _ _ _
      have hn2 : NoPropRefTo (setEntry
          (mergeH (mergeTarget st a key).1 (mergeTarget st a key).2 entries).1 a key
          (HVal.ref (mergeH (mergeTarget st a key).1
            (mergeTarget st a key).2 entries).2)) x := by
        refine NoPropRefTo_setEntry _ a key _ x m2 ?_
        intro hh
        injection hh with h2
        exact htne (hsnd.symm.trans h2)
      obtain ⟨l1, l2, l3⟩ := ihr x (by omega) hn2
      refine ⟨by omega, l2, fun hax key2 => ?_⟩
      rw [l3 hax key2, getEntry_setEntry_ne_addr _ x a key key2 _ hax, m3 htne key2,
        getEntry_mergeTarget st a key x hx key2]

theorem setEntry_arr_elems (st : Store) (c : Nat) (k : String) (v : HVal) (b : Nat)
    (elems : List HVal) (es : List (String × HVal))
    (h : st[b]? = some (HObj.arr elems es)) :
    ∃ es2, (setEntry st c k v)[b]? = some (HObj.arr elems es2) := by
  unfold setEntry
  rcases hc : st[c]? with _ | o <;> simp only [hc]
  · exact ⟨es, h⟩
  · by_cases hcb : c = b
    · subst hcb
      have ho : o = HObj.arr elems es := by
        rw [hc] at h
        exact Option.some.inj h
      subst ho
      refine ⟨setKeyAL es k v, ?_⟩
      rw [List.getElem?_set_self (lt_of_getElem?_some hc)]
      rfl
    · rw [List.getElem?_set_ne hcb]
      exact ⟨es, h⟩

theorem append_arr_elems (st : Store) (o : HObj) (b : Nat) (elems : List HVal)
    (es : List (String × HVal)) (h : st[b]? = some (HObj.arr elems es)) :
    (st ++ [o])[b]? = some (HObj.arr elems es) := by
  rw [List.getElem?_append_left (lt_of_getElem?_some h)]
  exact h

theorem mergeH_arr_unchanged (st : Store) (a : Nat) (src : List (String × SVal)) :
    ∀ (b : Nat) (elems : List HVal) (es : List (String × HVal)),
      st[b]? = some (HObj.arr elems es) →
      ∃ es2, (mergeH st a src).1[b]? = some (HObj.arr elems es2) := by
  induction st, a, src using mergeH.induct with
  | case1 st a =>
      intro b elems es h
      exact ⟨es, by simpa [mergeH] using h⟩
  | case2 st a key n rest ih =>
      intro b elems es h
      simp only [mergeH]
      obtain ⟨es1, h1⟩ := setEntry_arr_elems st a key (HVal.prim n) b elems es h
      exact ih b elems es1 h1
  | case3 st a key elems0 rest ih =>
      intro b elems es h
      simp only [mergeH]
      have h0 := append_arr_elems st (HObj.arr elems0 []) b elems es h
      obtain ⟨es1, h1⟩ := setEntry_arr_elems _ a key (HVal.ref st.length) b elems es h0
      exact ih b elems es1 h1
  | case4 st a key entries rest md ihe ihr =>
      intro b elems es h
      have hmd : md = mergeH (mergeTarget st a key).1 (mergeTarget st a key).2 entries :=
        rfl
      rw [hmd] at ihr
      simp only [mergeH]
      have ht : (mergeTarget st a key).1[b]? = some (HObj.arr elems es) := by
        rcases mergeTarget_fst st a key with h1 | h1 <;> rw [h1]
        · exact h
        · exact append_arr_elems st _ b elems es h
      obtain ⟨es1, h1⟩ := ihe b elems es ht
      obtain ⟨es2, h2⟩ := setEntry_arr_elems
        (mergeH (mergeTarget st a key).1 (mergeTarget st a key).2 entries).1 a key
        (HVal.ref (mergeH (mergeTarget st a key).1 (mergeTarget st a key).2 entries).2)
        b elems es1 h1
      exact ihr b elems es2 h2

theorem mergeH_absent_key (st : Store) (a : Nat) (src : List (String × SVal)) :
    ∀ key2, key2 ∉ src.map Prod.fst → a < st.length → NoPropRefTo st a →
      getEntry (mergeH st a src).1 a key2 = getEntry st a key2 := by
  induction st, a, src using mergeH.induct with
  | case1 st a =>
      intro key2 _ _ _
      simp [mergeH]
  | case2 st a key n rest ih =>
      intro key2 hk ha hn
      simp only [List.map_cons, List.mem_cons, not_or] at hk
      obtain ⟨hk1, hk2⟩ := hk
      simp only [mergeH]
      rw [ih key2 hk2 (by rw [setEntry_length]; omega)
        (NoPropRefTo_setEntry st a key _ a hn (fun hh => HVal.noConfusion hh))]
      exact getEntry_setEntry_ne_key st a key key2 _ (fun hh => hk1 hh.symm)
  | case3 st a key elems rest ih =>
      intro key2 hk ha hn
      simp only [List.map_cons, List.mem_cons, not_or] at hk
      obtain ⟨hk1, hk2⟩ := hk
      simp only [mergeH]
      have hn0 : NoPropRefTo (st ++ [HObj.arr elems []]) a :=
        NoPropRefTo_append st a _ hn rfl
      have hn1 : NoPropRefTo (setEntry (st ++ [HObj.arr elems []]) a key
          (HVal.ref st.length)) a := by
        refine NoPropRefTo_setEntry _ a key _ a hn0 ?_
        intro hh
        injection hh with h2
        omega
      rw [ih key2 hk2 (by rw [setEntry_length]; simp; omega) hn1,
        getEntry_setEntry_ne_key _ a key key2 _ (fun hh => hk1 hh.symm),
        getEntry_append_left st _ a key2 ha]
  | case4 st a key entries rest md ihe ihr =>
      intro key2 hk ha hn
      have hmd : md = mergeH (mergeTarget st a key).1 (mergeTarget st a key).2 entries :=
        rfl
      rw [hmd] at ihr
      simp only [List.map_cons, List.mem_cons, not_or] at hk
      obtain ⟨hk1, hk2⟩ := hk
      simp only [mergeH]
      have htl := mergeTarget_length st a key
      have htn : NoPropRefTo (mergeTarget st a key).1 a :=
        NoPropRefTo_mergeTarget st a key a hn
      have htne : (mergeTarget st a key).2 ≠ a := mergeTarget_snd_ne st a key a ha hn
      obtain ⟨m1, m2, m3⟩ :=
        mergeH_preserve (mergeTarget st a key).1 (mergeTarget st a key).2 entries a
          (by omega) htn
      have hsnd : (mergeH (mergeTarget st a key).1 (mergeTarget st a key).2 entries).2
          = (mergeTarget st a key).2 := mergeH_snd _ _ _
      have hn2 : NoPropRefTo (setEntry
          (mergeH (mergeTarget st a key).1 (mergeTarget st a key).2 entries).1 a key
          (HVal.ref (mergeH (mergeTarget st a key).1
            (mergeTarget st a key).2 entries).2)) a := by
        refine NoPropRefTo_setEntry _ a key _ a m2 ?_
        intro hh
        injection hh with h2
        exact htne (hsnd.symm.trans h2)
      rw [ihr key2 hk2 (by rw [setEntry_length]; omega) hn2,
        getEntry_setEntry_ne_key _ a key key2 _ (fun hh => hk1 hh.symm), m3 htne key2,
        getEntry_mergeTarget st a key a ha key2]

theorem setEntry_getElem?_ne (st : Store) (c : Nat) (k : String) (v : HVal) (b : Nat)
    (h : c ≠ b) : (setEntry st c k v)[b]? = st[b]? := by
  unfold setEntry
  rcases hc : st[c]? with _ | o <;> simp only [hc]
  rw [List.getElem?_set_ne h]

theorem mergeH_prim_overwrites (st : Store) (a : Nat) (src : List (String × SVal)) :
    ∀ (key2 : String) (n : Int), a < st.length → NoPropRefTo st a →
      (src.map Prod.fst).Nodup → (key2, SVal.prim n) ∈ src →
      getEntry (mergeH st a src).1 a key2 = some (HVal.prim n) := by
  induction st, a, src using mergeH.induct with
  | case1 st a =>
      intro key2 n _ _ _ hmem
      simp at hmem
  | case2 st a key m rest ih =>
      intro key2 n ha hn hnd hmem
      simp only [mergeH]
      have hnd1 := hnd
      rw [List.map_cons] at hnd1
      obtain ⟨hnotin, hnd2⟩ := List.nodup_cons.mp hnd1
      have ha1 : a < (setEntry st a key (HVal.prim m)).length := by
        rw [setEntry_length]
        omega
      have hn1 : NoPropRefTo (setEntry st a key (HVal.prim m)) a :=
        NoPropRefTo_setEntry st a key _ a hn (fun hh => HVal.noConfusion hh)
      rcases List.mem_cons.mp hmem with heq | hmem2
      · injection heq with h1 h2
        injection h2 with h3
        subst h1
        subst h3
        rw [mergeH_absent_key _ _ _ key2 hnotin ha1 hn1]
        exact getEntry_setEntry_self st a key2 _ ha
      · exact ih key2 n ha1 hn1 hnd2 hmem2
  | case3 st a key elems rest ih =>
      intro key2 n ha hn hnd hmem
      simp only [mergeH]
      have hnd1 := hnd
      rw [List.map_cons] at hnd1
      obtain ⟨hnotin, hnd2⟩ := List.nodup_cons.mp hnd1
      have ha1 : a < (setEntry (st ++ [HObj.arr elems []]) a key
          (HVal.ref st.length)).length := by
        rw [setEntry_length]
        simp
        omega
      have hn1 : NoPropRefTo (setEntry (st ++ [HObj.arr elems []]) a key
          (HVal.ref st.length)) a := by
        refine NoPropRefTo_setEntry _ a key _ a (NoPropRefTo_append st a _ hn rfl) ?_
        intro hh
        injection hh with h2
        omega
      rcases List.mem_cons.mp hmem with heq | hmem2
      · injection heq with h1 h2
        exact SVal.noConfusion h2
      · exact ih key2 n ha1 hn1 hnd2 hmem2
  | case4 st a key entries rest md ihe ihr =>
      intro key2 n ha hn hnd hmem
      have hmd : md = mergeH (mergeTarget st a key).1 (mergeTarget st a key).2 entries :=
        rfl
      rw [hmd] at ihr
      simp only [mergeH]
      have hnd1 := hnd
      rw [List.map_cons] at hnd1
      obtain ⟨hnotin, hnd2⟩ := List.nodup_cons.mp hnd1
      have htl := mergeTarget_length st a key
      have htn : NoPropRefTo (mergeTarget st a key).1 a :=
        NoPropRefTo_mergeTarget st a key a hn
      have htne : (mergeTarget st a key).2 ≠ a := mergeTarget_snd_ne st a key a ha hn
      obtain ⟨m1, m2, m3⟩ :=
        mergeH_preserve (mergeTarget st a key).1 (mergeTarget st a key).2 entries a
          (by omega) htn
      have hsnd := mergeH_snd (mergeTarget st a key).1 (mergeTarget st a key).2 entries
      have ha2 : a < (setEntry
          (mergeH (mergeTarget st a key).1 (mergeTarget st a key).2 entries).1 a key
          (HVal.ref (mergeH (mergeTarget st a key).1
            (mergeTarget st a key).2 entries).2)).length := by
        rw [setEntry_length]
        omega
      have hn2 : NoPropRefTo (setEntry
          (mergeH (mergeTarget st a key).1 (mergeTarget st a key).2 entries).1 a key
          (HVal.ref (mergeH (mergeTarget st a key).1
            (mergeTarget st a key).2 entries).2)) a := by
        refine NoPropRefTo_setEntry _ a key _ a m2 ?_
        intro hh
        injection hh with h2
        exact htne (hsnd.symm.trans h2)
      rcases List.mem_cons.mp hmem with heq | hmem2
      · injection heq with h1 h2
        exact SVal.noConfusion h2
      · exact ihr key2 n ha2 hn2 hnd2 hmem2

theorem mergeH_arr_fresh (st : Store) (a : Nat) (src : List (String × SVal)) :
    ∀ (key2 : String) (elems : List HVal), a < st.length → NoPropRefTo st a →
      (src.map Prod.fst).Nodup → (key2, SVal.arr elems) ∈ src →
      ∃ b es, getEntry (mergeH st a src).1 a key2 = some (HVal.ref b) ∧
        st.length ≤ b ∧ (mergeH st a src).1[b]? = some (HObj.arr elems es) := by
  induction st, a, src using mergeH.induct with
  | case1 st a =>
      intro key2 elems _ _ _ hmem
      simp at hmem
  | case2 st a key m rest ih =>
      intro key2 elems ha hn hnd hmem
      simp only [mergeH]
      have hnd1 := hnd
      rw [List.map_cons] at hnd1
      obtain ⟨hnotin, hnd2⟩ := List.nodup_cons.mp hnd1
      have hlen1 := setEntry_length st a key (HVal.prim m)
      have ha1 : a < (setEntry st a key (HVal.prim m)).length := by omega
      have hn1 : NoPropRefTo (setEntry st a key (HVal.prim m)) a :=
        NoPropRefTo_setEntry st a key _ a hn (fun hh => HVal.noConfusion hh)
      rcases List.mem_cons.mp hmem with heq | hmem2
      · injection heq with h1 h2
        exact SVal.noConfusion h2
      · obtain ⟨b, es, hb1, hb2, hb3⟩ := ih key2 elems ha1 hn1 hnd2 hmem2
        exact ⟨b, es, hb1, by omega, hb3⟩
  | case3 st a key elems0 rest ih =>
      intro key2 elems ha hn hnd hmem
      simp only [mergeH]
      have hnd1 := hnd
      rw [List.map_cons] at hnd1
      obtain ⟨hnotin, hnd2⟩ := List.nodup_cons.mp hnd1
      have hlen1 : (setEntry (st ++ [HObj.arr elems0 []]) a key
          (HVal.ref st.length)).length = st.length + 1 := by
        rw [setEntry_length]
        simp
      have ha1 : a < (setEntry (st ++ [HObj.arr elems0 []]) a key
          (HVal.ref st.length)).length := by omega
      have hn1 : NoPropRefTo (setEntry (st ++ [HObj.arr elems0 []]) a key
          (HVal.ref st.length)) a := by
        refine NoPropRefTo_setEntry _ a key _ a (NoPropRefTo_append st a _ hn rfl) ?_
        intro hh
        injection hh with h2
        omega
      rcases List.mem_cons.mp hmem with heq | hmem2
      · injection heq with h1 h2
        injection h2 with h3
        subst h1
        subst h3
        have hself : getEntry (setEntry (st ++ [HObj.arr elems []]) a key2
            (HVal.ref st.length)) a key2 = some (HVal.ref st.length) :=
          getEntry_setEntry_self _ a key2 _ (by simp; omega)
        have hfresh : (setEntry (st ++ [HObj.arr elems []]) a key2
            (HVal.ref st.length))[st.length]? = some (HObj.arr elems []) := by
          rw [setEntry_getElem?_ne _ a key2 _ st.length (by omega),
            List.getElem?_append_right (le_refl _)]
          simp
        obtain ⟨es2, h3⟩ := mergeH_arr_unchanged _ a rest st.length elems [] hfresh
        refine ⟨st.length, es2, ?_, le_refl _, h3⟩
        rw [mergeH_absent_key _ _ _ key2 hnotin ha1 hn1]
        exact hself
      · obtain ⟨b, es, hb1, hb2, hb3⟩ := ih key2 elems ha1 hn1 hnd2 hmem2
        exact ⟨b, es, hb1, by omega, hb3⟩
  | case4 st a key entries rest md ihe ihr =>
      intro key2 elems ha hn hnd hmem
      have hmd : md = mergeH (mergeTarget st a key).1 (mergeTarget st a key).2 entries :=
        rfl
      rw [hmd] at ihr
      simp only [mergeH]
      have hnd1 := hnd
      rw [List.map_cons] at hnd1
      obtain ⟨hnotin, hnd2⟩ := List.nodup_cons.mp hnd1
      have htl := mergeTarget_length st a key
      have htn : NoPropRefTo (mergeTarget st a key).1 a :=
        NoPropRefTo_mergeTarget st a key a hn
      have htne : (mergeTarget st a key).2 ≠ a := mergeTarget_snd_ne st a key a ha hn
      obtain ⟨m1, m2, m3⟩ :=
        mergeH_preserve (mergeTarget st a key).1 (mergeTarget st a key).2 entries a
          (by omega) htn
      have hsnd := mergeH_snd (mergeTarget st a key).1 (mergeTarget st a key).2 entries
      have hlen2 := setEntry_length
        (mergeH (mergeTarget st a key).1 (mergeTarget st a key).2 entries).1 a key
        (HVal.ref (mergeH (mergeTarget st a key).1 (mergeTarget st a key).2 entries).2)
      have ha2 : a < (setEntry
          (mergeH (mergeTarget st a key).1 (mergeTarget st a key).2 entries).1 a key
          (HVal.ref (mergeH (mergeTarget st a key).1
            (mergeTarget st a key).2 entries).2)).length := by omega
      have hn2 : NoPropRefTo (setEntry
          (mergeH (mergeTarget st a key).1 (mergeTarget st a key).2 entries).1 a key
          (HVal.ref (mergeH (mergeTarget st a key).1
            (mergeTarget st a key).2 entries).2)) a := by
        refine NoPropRefTo_setEntry _ a key _ a m2 ?_
        intro hh
        injection hh with h2
        exact htne (hsnd.symm.trans h2)
      rcases List.mem_cons.mp hmem with heq | hmem2
      · injection heq with h1 h2
        exact SVal.noConfusion h2
      · obtain ⟨b, es, hb1, hb2, hb3⟩ := ihr key2 elems ha2 hn2 hnd2 hmem2
        exact ⟨b, es, hb1, by omega, hb3⟩

theorem mergeJ_absent (ob src : List (String × JVal)) :
    ∀ key2, key2 ∉ src.map Prod.fst →
      lookupAL (mergeJ ob src) key2 = lookupAL ob key2 := by
  induction ob, src using mergeJ.induct with
  | case1 ob =>
      intro key2 _
      simp [mergeJ]
  | case2 ob key n rest ih =>
      intro key2 hk
      simp only [List.map_cons, List.mem_cons, not_or] at hk
      obtain ⟨hk1, hk2⟩ := hk
      simp only [mergeJ]
      rw [ih key2 hk2]
      exact lookupAL_setKeyAL_other ob key2 key _ (fun hh => hk1 hh.symm)
  | case3 ob key elems props rest ih =>
      intro key2 hk
      simp only [List.map_cons, List.mem_cons, not_or] at hk
      obtain ⟨hk1, hk2⟩ := hk
      simp only [mergeJ]
      rw [ih key2 hk2]
      exact lookupAL_setKeyAL_other ob key2 key _ (fun hh => hk1 hh.symm)
  | case4 ob key entries rest t hlk iht ih =>
      intro key2 hk
      simp only [List.map_cons, List.mem_cons, not_or] at hk
      obtain ⟨hk1, hk2⟩ := hk
      simp only [mergeJ, hlk]
      rw [ih key2 hk2]
      exact lookupAL_setKeyAL_other ob key2 key _ (fun hh => hk1 hh.symm)
  | case5 ob key entries rest el t hlk iht ih =>
      intro key2 hk
      simp only [List.map_cons, List.mem_cons, not_or] at hk
      obtain ⟨hk1, hk2⟩ := hk
      simp only [mergeJ, hlk]
      rw [ih key2 hk2]
      exact lookupAL_setKeyAL_other ob key2 key _ (fun hh => hk1 hh.symm)
  | case6 ob key entries rest hno hna iht ih =>
      intro key2 hk
      simp only [List.map_cons, List.mem_cons, not_or] at hk
      obtain ⟨hk1, hk2⟩ := hk
      have hred : mergeJ ob ((key, JVal.obj entries) :: rest)
          = mergeJ (setKeyAL ob key (JVal.obj (mergeJ [] entries))) rest := by
        rcases hlk : lookupAL ob key with _ | w
        · simp only [mergeJ, hlk]
        · cases w with
          | prim m => simp only [mergeJ, hlk]
          | obj t2 => exact absurd hlk (fun hh => hno t2 hh)
          | arr el2 t2 => exact absurd hlk (fun hh => hna el2 t2 hh)
      rw [hred, ih key2 hk2]
      exact lookupAL_setKeyAL_other ob key2 key _ (fun hh => hk1 hh.symm)

theorem mergeJ_obj_recursive (ob src : List (String × JVal)) :
    ∀ (key2 : String) (entries2 t2 : List (String × JVal)),
      (src.map Prod.fst).Nodup → (key2, JVal.obj entries2) ∈ src →
      lookupAL ob key2 = some (JVal.obj t2) →
      lookupAL (mergeJ ob src) key2 = some (JVal.obj (mergeJ t2 entries2)) := by
  induction ob, src using mergeJ.induct with
  | case1 ob =>
      intro key2 entries2 t2 _ hmem _
      simp at hmem
  | case2 ob key n rest ih =>
      intro key2 entries2 t2 hnd hmem hlk2
      have hnd1 := hnd
      rw [List.map_cons] at hnd1
      obtain ⟨hnotin, hnd2⟩ := List.nodup_cons.mp hnd1
      rcases List.mem_cons.mp hmem with heq | hmem2
      · injection heq with h1 h2
        exact JVal.noConfusion h2
      · have hkne : key ≠ key2 := by
          intro hh
          subst hh
          exact hnotin (List.mem_map.mpr ⟨(key, JVal.obj entries2), hmem2, rfl⟩)
        simp only [mergeJ]
        exact ih key2 entries2 t2 hnd2 hmem2
          ((lookupAL_setKeyAL_other ob key2 key _ hkne).trans hlk2)
  | case3 ob key elems props rest ih =>
      intro key2 entries2 t2 hnd hmem hlk2
      have hnd1 := hnd
      rw [List.map_cons] at hnd1
      obtain ⟨hnotin, hnd2⟩ := List.nodup_cons.mp hnd1
      rcases List.mem_cons.mp hmem with heq | hmem2
      · injection heq with h1 h2
        exact JVal.noConfusion h2
      · have hkne : key ≠ key2 := by
          intro hh
          subst hh
          exact hnotin (List.mem_map.mpr ⟨(key, JVal.obj entries2), hmem2, rfl⟩)
        simp only [mergeJ]
        exact ih key2 entries2 t2 hnd2 hmem2
          ((lookupAL_setKeyAL_other ob key2 key _ hkne).trans hlk2)
  | case4 ob key entries rest t hlk iht ih =>
      intro key2 entries2 t2 hnd hmem hlk2
      have hnd1 := hnd
      rw [List.map_cons] at hnd1
      obtain ⟨hnotin, hnd2⟩ := List.nodup_cons.mp hnd1
      rcases List.mem_cons.mp hmem with heq | hmem2
      · injection heq with h1 h2
        injection h2 with h3
        subst h1
        subst h3
        have ht : t = t2 := by
          have := hlk.symm.trans hlk2
          injection Option.some.inj this with h4
        subst ht
        simp only [mergeJ, hlk]
        rw [mergeJ_absent _ rest key2 hnotin]
        exact lookupAL_setKeyAL_self ob key2 _
      · have hkne : key ≠ key2 := by
          intro hh
          subst hh
          exact hnotin (List.mem_map.mpr ⟨(key, JVal.obj entries2), hmem2, rfl⟩)
        simp only [mergeJ, hlk]
        exact ih key2 entries2 t2 hnd2 hmem2
          ((lookupAL_setKeyAL_other ob key2 key _ hkne).trans hlk2)
  | case5 ob key entries rest el t hlk iht ih =>
      intro key2 entries2 t2 hnd hmem hlk2
      have hnd1 := hnd
      rw [List.map_cons] at hnd1
      obtain ⟨hnotin, hnd2⟩ := List.nodup_cons.mp hnd1
      rcases List.mem_cons.mp hmem with heq | hmem2
      · injection heq with h1 h2
        injection h2 with h3
        subst h1
        exact absurd (hlk.symm.trans hlk2) (fun hh => JVal.noConfusion (Option.some.inj hh))
      · have hkne : key ≠ key2 := by
          intro hh
          subst hh
          exact hnotin (List.mem_map.mpr ⟨(key, JVal.obj entries2), hmem2, rfl⟩)
        simp only [mergeJ, hlk]
        exact ih key2 entries2 t2 hnd2 hmem2
          ((lookupAL_setKeyAL_other ob key2 key _ hkne).trans hlk2)
  | case6 ob key entries rest hno hna iht ih =>
      intro key2 entries2 t2 hnd hmem hlk2
      have hnd1 := hnd
      rw [List.map_cons] at hnd1
      obtain ⟨hnotin, hnd2⟩ := List.nodup_cons.mp hnd1
      have hred : mergeJ ob ((key, JVal.obj entries) :: rest)
          = mergeJ (setKeyAL ob key (JVal.obj (mergeJ [] entries))) rest := by
        rcases hlk : lookupAL ob key with _ | w
        · simp only [mergeJ, hlk]
        · cases w with
          | prim m => simp only [mergeJ, hlk]
          | obj t3 => exact absurd hlk (fun hh => hno t3 hh)
          | arr el3 t3 => exact absurd hlk (fun hh => hna el3 t3 hh)
      rcases List.mem_cons.mp hmem with heq | hmem2
      · injection heq with h1 h2
        subst h1
        exact absurd hlk2 (fun hh => hno t2 hh)
      · have hkne : key ≠ key2 := by
          intro hh
          subst hh
          exact hnotin (List.mem_map.mpr ⟨(key, JVal.obj entries2), hmem2, rfl⟩)
        rw [hred]
        exact ih key2 entries2 t2 hnd2 hmem2
          ((lookupAL_setKeyAL_other ob key2 key _ hkne).trans hlk2)

/-- C10: `merge( object, source )` returns the very object it was given as
its first argument (the returned address is the target address, mutated in
place); for a source free of duplicate keys and a target object not
referenced by any property in the heap, a scalar source value overwrites the
target entry; an array source value leaves a reference to a freshly
allocated array — its address is new, so the result aliases no pre-existing
array, and its elements are exactly the source's elements, never an
element-wise merge with the target; and (in the alias-free tree view) a
nested plain-object source value is merged recursively into the target's
existing nested object. -/
theorem merge_in_place_semantics :
    (∀ (st : Store) (a : Nat) (src : List (String × SVal)), (mergeH st a src).2 = a) ∧
    (∀ (st : Store) (a : Nat) (src : List (String × SVal)) (key : String) (n : Int),
      a < st.length → NoPropRefTo st a → (src.map Prod.fst).Nodup →
      (key, SVal.prim n) ∈ src →
      getEntry (mergeH st a src).1 a key = some (HVal.prim n)) ∧
    (∀ (st : Store) (a : Nat) (src : List (String × SVal)) (key : String)
        (elems : List HVal),
      a < st.length → NoPropRefTo st a → (src.map Prod.fst).Nodup →
      (key, SVal.arr elems) ∈ src →
      ∃ b es, getEntry (mergeH st a src).1 a key = some (HVal.ref b) ∧
        st.length ≤ b ∧ (mergeH st a src).1[b]? = some (HObj.arr elems es)) ∧
    (∀ (ob src : List (String × JVal)) (key : String)
        (entries t : List (String × JVal)),
      (src.map Prod.fst).Nodup → (key, JVal.obj entries) ∈ src →
      lookupAL ob key = some (JVal.obj t) →
      lookupAL (mergeJ ob src) key = some (JVal.obj (mergeJ t entries))) :=
  ⟨mergeH_snd,
    fun st a src key n h1 h2 h3 h4 => mergeH_prim_overwrites st a src key n h1 h2 h3 h4,
    fun st a src key elems h1 h2 h3 h4 => mergeH_arr_fresh st a src key elems h1 h2 h3 h4,
    fun ob src key entries t h1 h2 h3 => mergeJ_obj_recursive ob src key entries t h1 h2 h3⟩

/-- A concrete two-object heap: address 0 is the merge target. -/
def wStore : Store :=
  [HObj.obj [("x", HVal.prim 1), ("y", HVal.ref 1)], HObj.obj [("z", HVal.prim 2)]]

/-- A concrete source: a scalar overwrite of `x` and an array at `w`. -/
def wSrc : List (String × SVal) :=
  [("x", SVal.prim 7), ("w", SVal.arr [HVal.prim 5])]

/-- A concrete tree-view target with a nested object at `o`. -/
def wObTree : List (String × JVal) :=
  [("o", JVal.obj [("p", JVal.prim 1)])]

/-- A concrete tree-view source with a nested object at `o`. -/
def wSrcTree : List (String × JVal) :=
  [("o", JVal.obj [("q", JVal.prim 2)])]

/-- C10 witness: the merge semantics at a concrete heap, source and tree. -/
theorem merge_in_place_semantics_witness :
    (0 < wStore.length ∧ NoPropRefTo wStore 0 ∧ (wSrc.map Prod.fst).Nodup ∧
      ("x", SVal.prim 7) ∈ wSrc ∧ ("w", SVal.arr [HVal.prim 5]) ∈ wSrc ∧
      (wSrcTree.map Prod.fst).Nodup ∧ ("o", JVal.obj [("q", JVal.prim 2)]) ∈ wSrcTree ∧
      lookupAL wObTree "o" = some (JVal.obj [("p", JVal.prim 1)])) ∧
    ((mergeH wStore 0 wSrc).2 = 0 ∧
      getEntry (mergeH wStore 0 wSrc).1 0 "x" = some (HVal.prim 7) ∧
      (∃ b es, getEntry (mergeH wStore 0 wSrc).1 0 "w" = some (HVal.ref b) ∧
        wStore.length ≤ b ∧
        (mergeH wStore 0 wSrc).1[b]? = some (HObj.arr [HVal.prim 5] es)) ∧
      lookupAL (mergeJ wObTree wSrcTree) "o"
        = some (JVal.obj (mergeJ [("p", JVal.prim 1)] [("q", JVal.prim 2)]))) :=
  ⟨⟨by decide, by unfold NoPropRefTo; decide, by decide,
      by unfold wSrc; exact List.mem_cons_self _ _,
      by unfold wSrc; exact List.mem_cons_of_mem _ (List.mem_cons_self _ _),
      by decide,
      by unfold wSrcTree; exact List.mem_cons_self _ _,
      by unfold wObTree lookupAL; rfl⟩,
    merge_in_place_semantics.1 wStore 0 wSrc,
    merge_in_place_semantics.2.1 wStore 0 wSrc "x" 7 (by decide)
      (by unfold NoPropRefTo; decide) (by decide)
      (by unfold wSrc; exact List.mem_cons_self _ _),
    merge_in_place_semantics.2.2.1 wStore 0 wSrc "w" [HVal.prim 5] (by decide)
      (by unfold NoPropRefTo; decide) (by decide)
      (by unfold wSrc; exact List.mem_cons_of_mem _ (List.mem_cons_self _ _)),
    merge_in_place_semantics.2.2.2 wObTree wSrcTree "o" [("q", JVal.prim 2)]
      [("p", JVal.prim 1)] (by decide)
      (by unfold wSrcTree; exact List.mem_cons_self _ _)
      (by unfold wObTree lookupAL; rfl)⟩

end MergeUtil

end Splide
